import Mathlib

/-!
Verification of the MLDecay decay-index engine.

This file is a shallow embedding, in Lean 4, of the core of MLDecay.py:
taxon-name formatting for the external engine, score-file log-likelihood
parsing, the per-site support decomposition, the AU (approximately
unbiased) significance-test driver, and the decay-index orchestration in
calculate_decay_indices.

Python floats are modelled as Rat (the arithmetic the program performs on
likelihoods is exact add, subtract and divide on decimal values, so Rat is
faithful for every property stated here).  The float inf sentinel, which
the source stores only as a ratio placeholder, is modelled by none in an
Option Rat.  Python int is modelled by Int where subtraction appears and
by Nat for pure counts.  Python dictionaries built in insertion order are
modelled by association lists looked up with List.lookup.  Python strings
are modelled by String at the interface and by List Char internally, so
that every textual operation is a structurally recursive function the
kernel can evaluate.  The external engine subprocess is modelled as an
oracle parameter: an invocation either succeeds with a captured output
text or fails (nonzero exit, timeout, or launch failure all collapse to
the failure case, exactly as the source catches every exception of
_run_paup_command_file in one handler).
-/

namespace MLDecay

/-! Character-list utilities shared by the parsers. -/

/-- Whitespace as recognised by the Python str.split and str.strip
defaults and by the regex class backslash-s on ASCII text: space, tab,
newline, carriage return, vertical tab, form feed. -/
def isPySpace (c : Char) : Bool :=
  c == ' ' || c == '\t' || c == '\n' || c == '\r' || c == '\x0b' || c == '\x0c'

/-- Helper for wordsOf: accumulates the current word (reversed). -/
def wordsAux : List Char → List Char → List (List Char)
  | [], acc => if acc.isEmpty then [] else [acc.reverse]
  | c :: rest, acc =>
      if isPySpace c then
        if acc.isEmpty then wordsAux rest [] else acc.reverse :: wordsAux rest []
      else wordsAux rest (c :: acc)

/-- Python str.split with no argument: split on whitespace runs,
discarding empty tokens. -/
def wordsOf (cs : List Char) : List (List Char) := wordsAux cs []

/-- Helper for splitLines: accumulates the current line (reversed). -/
def splitLinesAux : List Char → List Char → List (List Char)
  | [], acc => [acc.reverse]
  | c :: rest, acc =>
      if c == '\n' then acc.reverse :: splitLinesAux rest []
      else splitLinesAux rest (c :: acc)

/-- Python str.splitlines for newline-separated text (a trailing
newline yields one trailing empty line, which every consumer below
skips, so the difference from splitlines is unobservable here). -/
def splitLines (cs : List Char) : List (List Char) := splitLinesAux cs []

/-- Lowercasing, character by character (Python str.lower on the
ASCII text the engine emits). -/
def lowerChars (cs : List Char) : List Char := cs.map Char.toLower

/-- Tests whether the pattern (second argument) occurs at the start of
the text (first argument). -/
def listStarts : List Char → List Char → Bool
  | _, [] => true
  | [], _ :: _ => false
  | t :: ts, p :: ps => t == p && listStarts ts ps

/-- Substring test, modelling the Python operator in on strings. -/
def hasSub : List Char → List Char → Bool
  | [], pat => pat.isEmpty
  | t :: ts, pat => listStarts (t :: ts) pat || hasSub ts pat

/-- Rejoins a word list with single spaces: together with wordsOf this
models the normalization at line 397 of the source (strip, lower,
split, join with one space). -/
def joinWords : List (List Char) → List Char
  | [] => []
  | [w] => w
  | w :: ws => w ++ ' ' :: joinWords ws

/-- Index of the first occurrence of a word in a word list, modelling
the Python list.index call guarded by a membership test. -/
def idxOfWord (target : List Char) : List (List Char) → Option Nat
  | [] => none
  | w :: ws => if w == target then some 0 else (idxOfWord target ws).map (· + 1)

/-- Numeric value of a digit string (most significant digit first). -/
def natFromDigits (cs : List Char) : Nat :=
  cs.foldl (fun n c => 10 * n + (c.toNat - 48)) 0

/-- Conversion of an unsigned decimal literal (digits, optionally a dot
and more digits) to a rational.  This models the Python float
constructor on the decimal forms the engine writes into score files;
exponent forms and the inf and nan words are outside the vocabulary the
program ever receives from the engine and make the model reject. -/
def parseUnsignedDecimal (cs : List Char) : Option Rat :=
  let intPart := cs.takeWhile Char.isDigit
  let rest := cs.drop intPart.length
  match rest with
  | [] => if intPart.isEmpty then none else some ((natFromDigits intPart : Int) : Rat)
  | '.' :: frac =>
      if frac.all Char.isDigit && !(intPart.isEmpty && frac.isEmpty) then
        some (Rat.divInt (natFromDigits (intPart ++ frac) : Int) ((10 : Int) ^ frac.length))
      else none
  | _ => none

/-- Signed decimal conversion: the Python float constructor applied to
a whitespace-free token. -/
def parsePyFloat (cs : List Char) : Option Rat :=
  match cs with
  | '-' :: rest => (parseUnsignedDecimal rest).map (fun q => -q)
  | '+' :: rest => parseUnsignedDecimal rest
  | _ => parseUnsignedDecimal cs

/-! Taxon formatting: _format_taxon_for_paup, MLDecay.py lines 243-250. -/

/-- Character class of the source test at line 247: the regex class
containing whitespace, round, square and curly brackets, slash,
backslash, comma, semicolon, equals, star, backtick, double quote,
single quote, less-than, greater-than, together with the separate colon
test. -/
def isPaupSpecial (c : Char) : Bool :=
  c == ' ' || c == '\t' || c == '\n' || c == '\r' || c == '\x0b' || c == '\x0c' ||
  c == '(' || c == ')' || c == '[' || c == ']' || c == '\x7b' || c == '\x7d' ||
  c == '/' || c == '\\' || c == ',' || c == ';' || c == '=' || c == '*' ||
  c == '\x60' || c == '\x22' || c == '\x27' || c == '<' || c == '>' || c == ':'

/-- Replacement performed inside the quoted form: every single quote
(chr 39) becomes an underscore.  The source uses str.replace with
single-character arguments, which is exactly a character map. -/
def replaceQuoteChar (c : Char) : Char := if c == '\x27' then '_' else c

/-- Source function _format_taxon_for_paup (lines 243-250): quote the
name when it contains a special character, replacing internal single
quotes by underscores; otherwise return it unchanged. -/
def formatTaxonForPaup (name : String) : String :=
  if name.data.any isPaupSpecial then
    "\x27" ++ String.mk (name.data.map replaceQuoteChar) ++ "\x27"
  else name

/-! Score-file log-likelihood parsing: _parse_likelihood_from_score_file,
MLDecay.py lines 385-433.  The function receives the text of the score
file; the file-missing and read-error paths of the source (which return
None before any parsing) are outside the embedding. -/

/-- Header recognition (line 398): the normalized line must mention
tree together with one of the likelihood column spellings. -/
def isScoreHeaderLine (norm : List Char) : Bool :=
  hasSub norm "tree".data &&
    (hasSub norm "-lnl".data || hasSub norm "loglk".data || hasSub norm "likelihood".data)

/-- Column lookup (lines 400-404): the first name of the vocabulary
-lnl, loglk, likelihood, -loglk that occurs among the header words gives
the column index. -/
def findLnlCol (headers : List (List Char)) : Option Nat :=
  match idxOfWord "-lnl".data headers with
  | some i => some i
  | none =>
    match idxOfWord "loglk".data headers with
    | some i => some i
    | none =>
      match idxOfWord "likelihood".data headers with
      | some i => some i
      | none => idxOfWord "-loglk".data headers

/-- Scan for the header row (lines 396-405): the first line that both
passes the header test and yields a column index stops the scan; a line
that passes the header test but yields no column is passed over, as in
the source, where the loop only breaks once the column is found. -/
def findScoreHeader : List (List Char) → Option (Nat × List (List Char))
  | [] => none
  | line :: rest =>
      let norm := lowerChars line
      if isScoreHeaderLine (joinWords (wordsOf norm)) then
        match findLnlCol (wordsOf norm) with
        | some col => some (col, rest)
        | none => findScoreHeader rest
      else findScoreHeader rest

/-- Data-row scan (lines 412-430): skip blank lines, skip rows with too
few columns, skip rows whose likelihood field contains a star
placeholder, skip rows whose field is not numeric, and return the first
field that converts. -/
def scanScoreRows (col : Nat) : List (List Char) → Option Rat
  | [] => none
  | line :: rest =>
      let parts := wordsOf line
      if parts.isEmpty then scanScoreRows col rest
      else if col < parts.length then
        let v := parts.getD col []
        if v.contains '*' then scanScoreRows col rest
        else
          match parsePyFloat v with
          | some x => some x
          | none => scanScoreRows col rest
      else scanScoreRows col rest

/-- Source function _parse_likelihood_from_score_file applied to the
text of the score file. -/
def parseLikelihoodFromScoreFile (content : String) : Option Rat :=
  match findScoreHeader (splitLines content.data) with
  | none => none
  | some (col, rest) => scanScoreRows col rest

/-! Site decomposition summary: _calculate_site_likelihoods,
MLDecay.py lines 1002-1035. -/

/-- Summary statistics computed from the per-site likelihood deltas
(lines 1006-1018).  The two ratio fields are none exactly where the
source stores float inf. -/
structure SiteSummary where
  supportingSites : Nat
  conflictingSites : Nat
  neutralSites : Nat
  sumSupportingDelta : Rat
  sumConflictingDelta : Rat
  supportRatio : Option Rat
  weightedSupportRatio : Option Rat
  deriving Repr, DecidableEq

/-- Summary block of _calculate_site_likelihoods (lines 1004-1018),
applied to the list of per-site deltas (delta is the ML-tree site
log-likelihood minus the constrained-tree site log-likelihood). -/
def siteSummary (deltas : List Rat) : SiteSummary :=
  let supportingSites := (deltas.filter (fun d => d < 0)).length
  let conflictingSites := (deltas.filter (fun d => d > 0)).length
  let neutralSites := (deltas.filter (fun d => |d| < 0.000001)).length
  let sumSupportingDelta := (deltas.filter (fun d => d < 0)).sum
  let sumConflictingDelta := (deltas.filter (fun d => d > 0)).sum
  let weightedSupportRatio :=
    if sumConflictingDelta > 0 then some (|sumSupportingDelta| / sumConflictingDelta) else none
  let supportRatio :=
    if conflictingSites > 0 then some ((supportingSites : Rat) / (conflictingSites : Rat)) else none
  { supportingSites := supportingSites
    conflictingSites := conflictingSites
    neutralSites := neutralSites
    sumSupportingDelta := sumSupportingDelta
    sumConflictingDelta := sumConflictingDelta
    supportRatio := supportRatio
    weightedSupportRatio := weightedSupportRatio }

/-! AU significance test: run_au_test, MLDecay.py lines 629-659. -/

/-- Relative filename of the unconstrained optimum tree, the constant
ML_TREE_FN of the source. -/
def mlTreeFn : String := "ml_tree.tre"

/-- One entry of the AU result mapping: the log-likelihood the test
assigned to a tree and its AU p-value (absent when the test printed no
p-value for that tree). -/
structure AuEntry where
  lnL : Rat
  pValue : Option Rat
  deriving Repr, DecidableEq

/-- Modelled from the spec: the source calls self._parse_au_results on
the captured log of the AU invocation, but that method is absent from
the repository code, so its behaviour is taken from the specification
sentence that it parses the per-tree p-value table from the textual
output of the test, returning a mapping from tree index to
log-likelihood and p-value.  Each table row carries a tree index, a
log-likelihood and a p-value as whitespace-separated fields; rows of
any other shape are not part of the table.  An output in which no row
parses yields no result. -/
def parseAuLine (line : List Char) : Option (Nat × AuEntry) :=
  match wordsOf line with
  | [w1, w2, w3] =>
      if w1.all Char.isDigit && !w1.isEmpty then
        match parsePyFloat w2 with
        | some lnl =>
            match parsePyFloat w3 with
            | some p => some (natFromDigits w1, { lnL := lnl, pValue := some p })
            | none => none
        | none => none
      else none
  | _ => none

/-- Modelled from the spec: the whole table extraction of the absent
_parse_au_results, applied to the captured log text; see parseAuLine. -/
def parseAuResults (logText : String) : Option (List (Nat × AuEntry)) :=
  let entries := (splitLines logText.data).filterMap parseAuLine
  if entries.isEmpty then none else some entries

/-- Outcome of one engine invocation: success carries the captured
output text; every failure mode of _run_paup_command_file (nonzero
exit, timeout, launch error) raises and is caught by the caller, so
they collapse to one failure case. -/
inductive EngineOutcome where
  | ok (log : String)
  | err
  deriving Repr, DecidableEq

/-- Result of run_au_test together with whether the engine was
invoked at all (the invocation happens exactly when the script is
executed, lines 654-656). -/
structure AuRun where
  invoked : Bool
  result : Option (List (Nat × AuEntry))
  deriving Repr, DecidableEq

/-- Source function run_au_test (lines 629-659).  With no tree it
returns nothing; with exactly one tree it skips the engine and, when
that tree is the unconstrained optimum and its likelihood is known,
returns the conventional singleton mapping with p-value one; with two
or more trees it writes the script, invokes the engine, and parses the
AU table from the captured log on success, returning nothing on any
engine failure. -/
def runAuTest (mlLikelihood : Option Rat) (engine : EngineOutcome)
    (treeFiles : List String) : AuRun :=
  match treeFiles with
  | [] => { invoked := false, result := none }
  | [t] =>
      match mlLikelihood with
      | some l =>
          if t == mlTreeFn then
            { invoked := false, result := some [(1, { lnL := l, pValue := some 1 })] }
          else { invoked := false, result := none }
      | none => { invoked := false, result := none }
  | _ :: _ :: _ =>
      match engine with
      | .ok log => { invoked := true, result := parseAuResults log }
      | .err => { invoked := true, result := none }

/-- Command list of the AU script (lines 641-647): alignment load and
model setup, then the first tree file loaded with mode 3 (so it becomes
tree 1), every further tree file loaded with mode 7 (appended in
order), then the one joint lscores command with autest.  The model
setup fragment is a parameter, as it comes from the model translator. -/
def auTestScriptCmds (modelSetup : String) (treeFiles : List String) : List String :=
  match treeFiles with
  | [] => []
  | t0 :: rest =>
      ["execute alignment.nex;", modelSetup,
       "gettrees file=" ++ t0 ++ " mode=3 storebrlens=yes;"]
      ++ rest.map (fun t => "gettrees file=" ++ t ++ " mode=7 storebrlens=yes;")
      ++ ["lscores 1-" ++ toString treeFiles.length ++
          " / autest=yes scorefile=au_test_results.txt replace=yes;"]

/-! Decay-index orchestration: calculate_decay_indices,
MLDecay.py lines 738-882, with perform_site_analysis false (the site
branch folds extra fields into the records and is independent of every
property stated below).  The constrained search for one branch
(_generate_and_score_constraint_tree, which drives the engine
subprocess) is abstracted as an oracle returning what the source
returns: an optional tree filename and an optional likelihood.  The AU
pass (run_au_test) is likewise an oracle from the assembled tree-file
list to an optional parsed mapping. -/

/-- Size guard of the branch loop (line 767): a clade is skipped when
its taxon count is at most one or at least the total taxon count minus
one.  Counts are Int, as Python integers subtract freely. -/
def testableSize (k total : Int) : Bool := !(k ≤ 1 || total - 1 ≤ k)

/-- Per-branch information accumulated by the loop (lines 781-787). -/
structure ConstraintInfo where
  taxa : List String
  paupTreeIndex : Nat
  constrainedLnl : Option Rat
  lnlDiff : Option Rat
  treeFilename : String
  deriving Repr, DecidableEq

/-- One decay record of the final result set (lines 825-831 and the AU
update at 855-871). -/
structure DecayRecord where
  taxa : List String
  lnlDiff : Option Rat
  constrainedLnl : Option Rat
  auPvalue : Option Rat
  significantAU : Option Bool
  deriving Repr, DecidableEq

/-- State of the branch loop: the growing tree-file list (seeded with
the ML tree), the per-branch info map in insertion order, and the
indices of the branches for which a constrained search was attempted
(the oracle was consulted). -/
structure BranchPhase where
  treeFiles : List String
  infoMap : List (Nat × ConstraintInfo)
  attempted : List Nat
  deriving Repr, DecidableEq

/-- Branch loop body (lines 762-789): for each 1-based branch index and
clade taxon list, skip the branch when the size guard rejects it;
otherwise consult the search oracle; a produced tree file is appended
to the tree list and an info record is created (its paupTreeIndex is
the new list length, its difference is constrained minus optimum when
the likelihood came back); a branch with no tree file is dropped. -/
def branchLoopAux (mlLnl : Rat) (total : Int)
    (search : Nat → List String → Option String × Option Rat) :
    List (Nat × List String) → BranchPhase → BranchPhase
  | [], st => st
  | (idx, taxa) :: rest, st =>
      if testableSize (taxa.length : Int) total then
        let res := search idx taxa
        match res.1 with
        | some fn =>
            let files := st.treeFiles ++ [fn]
            let info : ConstraintInfo :=
              { taxa := taxa
                paupTreeIndex := files.length
                constrainedLnl := res.2
                lnlDiff := res.2.map (fun c => c - mlLnl)
                treeFilename := fn }
            branchLoopAux mlLnl total search rest
              { treeFiles := files
                infoMap := st.infoMap ++ [(idx, info)]
                attempted := st.attempted ++ [idx] }
        | none =>
            branchLoopAux mlLnl total search rest
              { treeFiles := st.treeFiles
                infoMap := st.infoMap
                attempted := st.attempted ++ [idx] }
      else branchLoopAux mlLnl total search rest st

/-- The enumerate of the internal clades (line 762): 1-based indices
paired with the clade taxon lists. -/
def enumClades (clades : List (List String)) : List (Nat × List String) :=
  (List.range clades.length).map (fun j => (j + 1, clades.getD j []))

/-- Whole branch phase: the loop over every internal clade, starting
from the tree list holding only the ML tree. -/
def branchPhase (mlLnl : Rat) (total : Int)
    (search : Nat → List String → Option String × Option Rat)
    (clades : List (List String)) : BranchPhase :=
  branchLoopAux mlLnl total search (enumClades clades)
    { treeFiles := [mlTreeFn], infoMap := [], attempted := [] }

/-- Initial population of a decay record from the branch-phase info
(lines 825-831): difference and constrained likelihood carried over,
p-value and significance flag absent. -/
def initRecord (c : ConstraintInfo) : DecayRecord :=
  { taxa := c.taxa
    lnlDiff := c.lnlDiff
    constrainedLnl := c.constrainedLnl
    auPvalue := none
    significantAU := none }

/-- First step of the AU update (lines 844-852): when the test scored
tree 1 and disagrees with the stored optimum likelihood beyond the
0.001 tolerance, the optimum is replaced and every difference with a
known constrained likelihood is recomputed against it. -/
def auUpdateMlAndRecalc (ml : Rat) (recs : List (Nat × DecayRecord))
    (res : List (Nat × AuEntry)) : Rat × List (Nat × DecayRecord) :=
  match res.lookup 1 with
  | some e =>
      if |e.lnL - ml| > 0.001 then
        (e.lnL, recs.map (fun p =>
          match p.2.constrainedLnl with
          | some c => (p.1, { p.2 with lnlDiff := some (c - e.lnL) })
          | none => p))
      else (ml, recs)
  | none => (ml, recs)

/-- Per-record AU attachment (lines 855-871): when the test scored the
tree of this record, attach the p-value, set the significance flag at
the 0.05 threshold when a p-value is present, and adopt the test
likelihood (recomputing the difference) when the stored constrained
likelihood is absent or disagrees beyond the 0.001 tolerance. -/
def auAttach (ml : Rat) (res : List (Nat × AuEntry)) (c : ConstraintInfo)
    (rec : DecayRecord) : DecayRecord :=
  match res.lookup c.paupTreeIndex with
  | none => rec
  | some e =>
      let rec1 : DecayRecord :=
        { rec with
          auPvalue := e.pValue
          significantAU :=
            match e.pValue with
            | some p => some (decide (p < 0.05))
            | none => rec.significantAU }
      match rec1.constrainedLnl with
      | none => { rec1 with constrainedLnl := some e.lnL, lnlDiff := some (e.lnL - ml) }
      | some cur =>
          if |cur - e.lnL| > 0.001 then
            { rec1 with constrainedLnl := some e.lnL, lnlDiff := some (e.lnL - ml) }
          else rec1

/-- Truthiness of the AU result in the source (line 842): a Python
None and an empty mapping are both falsy, so the update runs exactly
when a nonempty mapping came back. -/
def auHasData : Option (List (Nat × AuEntry)) → Bool
  | some (_ :: _) => true
  | _ => false

/-- AU phase over the populated records (lines 822-875): populate every
record from its branch info, then, when the test returned data, run the
optimum update and the per-record attachment; otherwise leave the
records as populated.  Returns the records and the (possibly updated)
optimum likelihood. -/
def applyAuPhase (ml : Rat) (infoMap : List (Nat × ConstraintInfo))
    (auRes : Option (List (Nat × AuEntry))) : List (Nat × DecayRecord) × Rat :=
  let init := infoMap.map (fun p => (p.1, initRecord p.2))
  if auHasData auRes then
    match auRes with
    | some res =>
        let step := auUpdateMlAndRecalc ml init res
        (step.2.map (fun p =>
          match infoMap.lookup p.1 with
          | some c => (p.1, auAttach step.1 res c p.2)
          | none => p), step.1)
    | none => (init, ml)
  else (init, ml)

/-- Source function calculate_decay_indices with the ML tree and its
likelihood already established (the source returns an empty result
before this point otherwise), returning the record map and the final
optimum likelihood.  The early return at lines 791-794 yields an empty
map when no constraint tree was produced. -/
def calculateDecayFull (mlLnl : Rat) (total : Int) (clades : List (List String))
    (search : Nat → List String → Option String × Option Rat)
    (au : List String → Option (List (Nat × AuEntry))) :
    List (Nat × DecayRecord) × Rat :=
  let bp := branchPhase mlLnl total search clades
  if bp.infoMap.isEmpty then ([], mlLnl)
  else applyAuPhase mlLnl bp.infoMap (au bp.treeFiles)

/-- The decay-index record map returned to the caller. -/
def calculateDecayIndices (mlLnl : Rat) (total : Int) (clades : List (List String))
    (search : Nat → List String → Option String × Option Rat)
    (au : List String → Option (List (Nat × AuEntry))) : List (Nat × DecayRecord) :=
  (calculateDecayFull mlLnl total clades search au).1

/-- The optimum log-likelihood as it stands after the run (the AU pass
may have re-scored it). -/
def finalMlLikelihood (mlLnl : Rat) (total : Int) (clades : List (List String))
    (search : Nat → List String → Option String × Option Rat)
    (au : List String → Option (List (Nat × AuEntry))) : Rat :=
  (calculateDecayFull mlLnl total clades search au).2

/-! Helper lemmas about the embedded definitions, shared by the claim
theorems below. -/

/-- Lookup in an association list succeeds exactly on the stored keys. -/
theorem lookup_isSome_iff {β : Type} (l : List (Nat × β)) (i : Nat) :
    (l.lookup i).isSome = true ↔ i ∈ l.map Prod.fst := by
  induction l with
  | nil => simp [List.lookup]
  | cons a l ih =>
      rcases a with ⟨k, v⟩
      rw [List.lookup_cons]
      by_cases h : i = k
      · subst h; simp
      · have hbeq : (i == k) = false := beq_false_of_ne h
        rw [hbeq]
        rw [ih]
        simp [h]

/-- The size guard of the branch loop accepts exactly the clades whose
taxon count k satisfies 2 ≤ k ≤ total − 2. -/
theorem testableSize_iff (k total : Int) :
    testableSize k total = true ↔ 2 ≤ k ∧ k ≤ total - 2 := by
  simp [testableSize]
  omega

/-- Keys of the info map produced by the loop: the branches that pass
the size guard and whose search produced a tree file, in order. -/
theorem branchLoopAux_infoMap_keys (mlLnl : Rat) (total : Int)
    (search : Nat → List String → Option String × Option Rat) :
    ∀ (todo : List (Nat × List String)) (st : BranchPhase),
      (branchLoopAux mlLnl total search todo st).infoMap.map Prod.fst
        = st.infoMap.map Prod.fst
          ++ (todo.filter (fun p =>
                testableSize (p.2.length : Int) total
                  && ((search p.1 p.2).1).isSome)).map Prod.fst := by
  intro todo
  induction todo with
  | nil => intro st; simp [branchLoopAux]
  | cons hd tl ih =>
      intro st
      rcases hd with ⟨idx, taxa⟩
      by_cases hg : testableSize (taxa.length : Int) total = true
      · rcases hs : (search idx taxa).1 with _ | fn
        · rw [branchLoopAux]
          simp only [hg, if_true, hs]
          rw [ih]
          simp [List.filter, hg, hs]
        · rw [branchLoopAux]
          simp only [hg, if_true, hs]
          rw [ih]
          simp [List.filter, hg, hs]
      · rw [branchLoopAux]
        rw [if_neg (by simp [hg])]
        rw [ih]
        simp [List.filter, hg]

/-- Branches for which the loop consulted the search oracle: exactly
the ones passing the size guard, in order. -/
theorem branchLoopAux_attempted (mlLnl : Rat) (total : Int)
    (search : Nat → List String → Option String × Option Rat) :
    ∀ (todo : List (Nat × List String)) (st : BranchPhase),
      (branchLoopAux mlLnl total search todo st).attempted
        = st.attempted
          ++ (todo.filter (fun p => testableSize (p.2.length : Int) total)).map Prod.fst := by
  intro todo
  induction todo with
  | nil => intro st; simp [branchLoopAux]
  | cons hd tl ih =>
      intro st
      rcases hd with ⟨idx, taxa⟩
      by_cases hg : testableSize (taxa.length : Int) total = true
      · rcases hs : (search idx taxa).1 with _ | fn
        · rw [branchLoopAux]
          simp only [hg, if_true, hs]
          rw [ih]
          simp [List.filter, hg]
        · rw [branchLoopAux]
          simp only [hg, if_true, hs]
          rw [ih]
          simp [List.filter, hg]
      · rw [branchLoopAux]
        rw [if_neg (by simp [hg])]
        rw [ih]
        simp [List.filter, hg]

/-- The loop only appends to the tree-file list, so its first element
is preserved. -/
theorem branchLoopAux_treeFiles_head (mlLnl : Rat) (total : Int)
    (search : Nat → List String → Option String × Option Rat) :
    ∀ (todo : List (Nat × List String)) (st : BranchPhase) (x : String) (xs : List String),
      st.treeFiles = x :: xs →
      ∃ ys, (branchLoopAux mlLnl total search todo st).treeFiles = x :: ys := by
  intro todo
  induction todo with
  | nil => intro st x xs h; exact ⟨xs, by simpa [branchLoopAux] using h⟩
  | cons hd tl ih =>
      intro st x xs h
      rcases hd with ⟨idx, taxa⟩
      by_cases hg : testableSize (taxa.length : Int) total = true
      · rcases hs : (search idx taxa).1 with _ | fn
        · rw [branchLoopAux]
          simp only [hg, if_true, hs]
          exact ih _ x xs h
        · rw [branchLoopAux]
          simp only [hg, if_true, hs]
          apply ih _ x (xs ++ [fn])
          show st.treeFiles ++ [fn] = x :: (xs ++ [fn])
          rw [h]
          rfl
      · rw [branchLoopAux]
        rw [if_neg (by simp [hg])]
        exact ih _ x xs h

/-- Membership in the clade enumeration. -/
theorem mem_enumClades (clades : List (List String)) (p : Nat × List String) :
    p ∈ enumClades clades ↔ ∃ j, j < clades.length ∧ p = (j + 1, clades.getD j []) := by
  simp only [enumClades, List.mem_map, List.mem_range]
  constructor
  · rintro ⟨j, hj, rfl⟩; exact ⟨j, hj, rfl⟩
  · rintro ⟨j, hj, rfl⟩; exact ⟨j, hj, rfl⟩

/-- Mapping a key-preserving function over an association list
preserves the key list. -/
theorem map_fst_invariant {β : Type} (recs : List (Nat × β)) (f : Nat × β → Nat × β)
    (hf : ∀ p, (f p).1 = p.1) : (recs.map f).map Prod.fst = recs.map Prod.fst := by
  rw [List.map_map]
  apply List.map_congr_left
  intro a _
  exact hf a

/-- The optimum re-score step keeps every record key. -/
theorem auUpdateMlAndRecalc_keys (ml : Rat) (recs : List (Nat × DecayRecord))
    (res : List (Nat × AuEntry)) :
    ((auUpdateMlAndRecalc ml recs res).2).map Prod.fst = recs.map Prod.fst := by
  unfold auUpdateMlAndRecalc
  rcases res.lookup 1 with _ | e
  · rfl
  · by_cases h : |e.lnL - ml| > (0.001 : Rat)
    · simp only [h, if_true]
      apply map_fst_invariant
      intro p
      rcases hp : p.2.constrainedLnl with _ | c <;> simp [hp]
    · simp [h]

/-- The AU phase keeps exactly the keys of the branch-phase info map. -/
theorem applyAuPhase_keys (ml : Rat) (infoMap : List (Nat × ConstraintInfo))
    (auRes : Option (List (Nat × AuEntry))) :
    ((applyAuPhase ml infoMap auRes).1).map Prod.fst = infoMap.map Prod.fst := by
  unfold applyAuPhase
  by_cases h : auHasData auRes = true
  · rcases auRes with _ | res
    · exact absurd h (by simp [auHasData])
    · simp only [h, if_true]
      rw [map_fst_invariant _ _ (fun p => by
        rcases hq : List.lookup p.1 infoMap with _ | c <;> simp only [hq])]
      · rw [auUpdateMlAndRecalc_keys, List.map_map]
        rfl
  · rw [if_neg h, List.map_map]
    rfl

/-- Every record of the branch phase has its difference equal to its
constrained likelihood minus the optimum (when the former is present),
as the loop computes it that way. -/
theorem branchLoopAux_diff_inv (mlLnl : Rat) (total : Int)
    (search : Nat → List String → Option String × Option Rat) :
    ∀ (todo : List (Nat × List String)) (st : BranchPhase),
      (∀ p ∈ st.infoMap, p.2.lnlDiff = p.2.constrainedLnl.map (fun c => c - mlLnl)) →
      ∀ p ∈ (branchLoopAux mlLnl total search todo st).infoMap,
        p.2.lnlDiff = p.2.constrainedLnl.map (fun c => c - mlLnl) := by
  intro todo
  induction todo with
  | nil => intro st h; simpa [branchLoopAux] using h
  | cons hd tl ih =>
      intro st h
      rcases hd with ⟨idx, taxa⟩
      by_cases hg : testableSize (taxa.length : Int) total = true
      · rcases hs : (search idx taxa).1 with _ | fn
        · rw [branchLoopAux]
          simp only [hg, if_true, hs]
          exact ih _ h
        · rw [branchLoopAux]
          simp only [hg, if_true, hs]
          apply ih
          intro p hp
          rcases List.mem_append.mp hp with hin | hnew
          · exact h p hin
          · rcases List.mem_singleton.mp hnew with rfl
            rfl
      · rw [branchLoopAux]
        rw [if_neg (by simp [hg])]
        exact ih _ h

/-- The per-record AU attachment preserves the difference invariant
relative to a fixed optimum. -/
theorem auAttach_diff_inv (ml : Rat) (res : List (Nat × AuEntry)) (c : ConstraintInfo)
    (rec : DecayRecord)
    (h : rec.lnlDiff = rec.constrainedLnl.map (fun x => x - ml)) :
    (auAttach ml res c rec).lnlDiff
      = (auAttach ml res c rec).constrainedLnl.map (fun x => x - ml) := by
  unfold auAttach
  rcases res.lookup c.paupTreeIndex with _ | e
  · exact h
  · rcases hc : rec.constrainedLnl with _ | cur
    · simp only [hc]
      rfl
    · simp only [hc]
      by_cases hd : |cur - e.lnL| > (0.001 : Rat)
      · simp only [hd, if_true]
        rfl
      · simp only [hd, if_false]
        rw [hc] at h
        exact h

/-- The optimum re-score step re-establishes the difference invariant
relative to the optimum it returns. -/
theorem auUpdateMlAndRecalc_diff_inv (ml : Rat) (recs : List (Nat × DecayRecord))
    (res : List (Nat × AuEntry))
    (h : ∀ p ∈ recs, p.2.lnlDiff = p.2.constrainedLnl.map (fun c => c - ml)) :
    ∀ p ∈ (auUpdateMlAndRecalc ml recs res).2,
      p.2.lnlDiff = p.2.constrainedLnl.map (fun c => c - (auUpdateMlAndRecalc ml recs res).1) := by
  unfold auUpdateMlAndRecalc
  rcases res.lookup 1 with _ | e
  · exact h
  · by_cases hd : |e.lnL - ml| > (0.001 : Rat)
    · simp only [hd, if_true]
      intro p hp
      rcases List.mem_map.mp hp with ⟨q, hq, rfl⟩
      rcases hqc : q.2.constrainedLnl with _ | cq
      · simp only [hqc]
        have := h q hq
        rw [hqc] at this
        simpa [hqc] using this
      · simp only [hqc]
        rfl
    · simp only [hd, if_false]
      exact h

/-- The whole AU phase re-establishes the difference invariant relative
to the optimum it returns. -/
theorem applyAuPhase_diff_inv (ml : Rat) (infoMap : List (Nat × ConstraintInfo))
    (auRes : Option (List (Nat × AuEntry)))
    (h : ∀ p ∈ infoMap, p.2.lnlDiff = p.2.constrainedLnl.map (fun c => c - ml)) :
    ∀ p ∈ (applyAuPhase ml infoMap auRes).1,
      p.2.lnlDiff = p.2.constrainedLnl.map (fun c => c - (applyAuPhase ml infoMap auRes).2) := by
  have hinit : ∀ p ∈ infoMap.map (fun p => (p.1, initRecord p.2)),
      p.2.lnlDiff = p.2.constrainedLnl.map (fun c => c - ml) := by
    intro p hp
    rcases List.mem_map.mp hp with ⟨q, hq, rfl⟩
    exact h q hq
  unfold applyAuPhase
  by_cases hd : auHasData auRes = true
  · rcases auRes with _ | res
    · exact absurd hd (by simp [auHasData])
    · simp only [hd, if_true]
      intro p hp
      rcases List.mem_map.mp hp with ⟨q, hq, rfl⟩
      have hq2 := auUpdateMlAndRecalc_diff_inv ml _ res hinit q hq
      rcases hl : List.lookup q.1 infoMap with _ | c
      · simp only [hl]
        exact hq2
      · simp only [hl]
        exact auAttach_diff_inv _ res c q.2 hq2
  · rw [if_neg hd]
    exact hinit

/-! Claim theorems. -/

/-- Claim C1: whenever the joint significance test is run over at least
two trees and the engine invocation succeeds, run_au_test returns the
mapping from tree index to log-likelihood and AU p-value parsed from
the textual output of the test, and tree index 1 denotes the
unconstrained optimum: the script loads the first submitted file as
tree 1, and the orchestration submits the ML tree file first. -/
theorem au_test_success_parses_per_tree_table
    (ml : Option Rat) (log : String) (trees : List String) (modelSetup : String)
    (mlLnl : Rat) (total : Int)
    (search : Nat → List String → Option String × Option Rat)
    (clades : List (List String))
    (htwo : 2 ≤ trees.length) :
    (runAuTest ml (.ok log) trees).invoked = true ∧
    (runAuTest ml (.ok log) trees).result = parseAuResults log ∧
    (auTestScriptCmds modelSetup trees).get? 2
      = some ("gettrees file=" ++ trees.headD "" ++ " mode=3 storebrlens=yes;") ∧
    (branchPhase mlLnl total search clades).treeFiles.head? = some mlTreeFn := by
  rcases trees with _ | ⟨t0, trees2⟩
  · simp at htwo
  rcases trees2 with _ | ⟨t1, rest⟩
  · simp at htwo
  refine ⟨rfl, rfl, rfl, ?_⟩
  rcases branchLoopAux_treeFiles_head mlLnl total search (enumClades clades)
      { treeFiles := [mlTreeFn], infoMap := [], attempted := [] } mlTreeFn [] rfl with ⟨ys, hys⟩
  rw [branchPhase, hys]
  rfl

/-- Witness for C1 at a concrete two-tree invocation. -/
theorem au_test_success_parses_per_tree_table_witness :
    2 ≤ (["ml_tree.tre", "constraint_tree_1.tre"] : List String).length ∧
    ((runAuTest (some 0) (.ok "1 -99.5 0.8") ["ml_tree.tre", "constraint_tree_1.tre"]).invoked = true ∧
     (runAuTest (some 0) (.ok "1 -99.5 0.8") ["ml_tree.tre", "constraint_tree_1.tre"]).result
       = parseAuResults "1 -99.5 0.8" ∧
     (auTestScriptCmds "lset nst=6;" ["ml_tree.tre", "constraint_tree_1.tre"]).get? 2
       = some ("gettrees file="
           ++ (["ml_tree.tre", "constraint_tree_1.tre"] : List String).headD ""
           ++ " mode=3 storebrlens=yes;") ∧
     (branchPhase 0 4 (fun _ _ => (none, none)) []).treeFiles.head? = some mlTreeFn) :=
  ⟨by decide,
   au_test_success_parses_per_tree_table (some 0) "1 -99.5 0.8"
     ["ml_tree.tre", "constraint_tree_1.tre"] "lset nst=6;" 0 4
     (fun _ _ => (none, none)) [] (by decide)⟩

/-- Counterexample to claim C2 as stated: with four taxa, one testable
clade of two taxa, and a constrained search that returns a likelihood
but no tree file, the run produces no record at all, although the claim
says a likelihood-only branch still gets a record. -/
theorem record_for_likelihood_only_branch_counterexample :
    testableSize (((["A", "B"] : List String).length : Int)) 4 = true ∧
    ((none : Option String), some (-(101 : Rat))).2.isSome = true ∧
    calculateDecayIndices (-100) 4 [["A", "B"]]
      (fun _ _ => ((none : Option String), some (-(101 : Rat)))) (fun _ => none) = [] := by
  exact ⟨by decide, by decide, by decide⟩

/-- Claim C2 (amended): a decay record is created for a branch exactly
when the size guard admits its clade and its constrained search
produced a tree file; whether a likelihood came back plays no role in
record creation, so a branch with a likelihood but no tree file yields
no record. -/
theorem record_created_iff_tree_file_produced
    (ml : Rat) (total : Int) (clades : List (List String))
    (search : Nat → List String → Option String × Option Rat)
    (au : List String → Option (List (Nat × AuEntry)))
    (j : Nat) (hj : j < clades.length) :
    ((calculateDecayIndices ml total clades search au).lookup (j + 1)).isSome = true ↔
      2 ≤ ((clades.getD j []).length : Int) ∧ ((clades.getD j []).length : Int) ≤ total - 2
        ∧ ((search (j + 1) (clades.getD j [])).1).isSome = true := by
  rw [lookup_isSome_iff]
  have hkeys : (calculateDecayIndices ml total clades search au).map Prod.fst
      = (branchPhase ml total search clades).infoMap.map Prod.fst := by
    rw [calculateDecayIndices, calculateDecayFull]
    by_cases he : (branchPhase ml total search clades).infoMap.isEmpty = true
    · rw [if_pos he]
      rw [List.isEmpty_iff.mp he]
      rfl
    · rw [if_neg he]
      exact applyAuPhase_keys ..
  rw [hkeys]
  rw [branchPhase, branchLoopAux_infoMap_keys]
  simp only [List.nil_append]
  constructor
  · intro hmem
    rcases List.mem_map.mp hmem with ⟨p, hp, hfst⟩
    rcases List.mem_filter.mp hp with ⟨hpin, hptest⟩
    rcases (mem_enumClades clades p).mp hpin with ⟨j2, hj2, rfl⟩
    have : j2 = j := by omega
    subst this
    rcases Bool.and_eq_true_iff.mp hptest with ⟨htest, hsome⟩
    rcases (testableSize_iff ..).mp htest with ⟨h1, h2⟩
    exact ⟨h1, h2, hsome⟩
  · rintro ⟨h1, h2, hsome⟩
    apply List.mem_map.mpr
    refine ⟨(j + 1, clades.getD j []), ?_, rfl⟩
    apply List.mem_filter.mpr
    refine ⟨(mem_enumClades clades _).mpr ⟨j, hj, rfl⟩, ?_⟩
    apply Bool.and_eq_true_iff.mpr
    exact ⟨(testableSize_iff ..).mpr ⟨h1, h2⟩, hsome⟩

/-- Witness for the amended C2 at a concrete run whose single branch
produced a tree file. -/
theorem record_created_iff_tree_file_produced_witness :
    (0 : Nat) < ([["A", "B"]] : List (List String)).length ∧
    (((calculateDecayIndices (-100) 4 [["A", "B"]]
        (fun _ _ => (some "constraint_tree_1.tre", some (-(101 : Rat))))
        (fun _ => none)).lookup (0 + 1)).isSome = true ↔
      2 ≤ ((([["A", "B"]] : List (List String)).getD 0 []).length : Int)
        ∧ ((([["A", "B"]] : List (List String)).getD 0 []).length : Int) ≤ 4 - 2
        ∧ ((((fun _ _ => (some "constraint_tree_1.tre", some (-(101 : Rat)))) :
              Nat → List String → Option String × Option Rat)
            (0 + 1) (([["A", "B"]] : List (List String)).getD 0 [])).1).isSome = true) :=
  ⟨by decide,
   record_created_iff_tree_file_produced (-100) 4 [["A", "B"]]
     (fun _ _ => (some "constraint_tree_1.tre", some (-(101 : Rat))))
     (fun _ => none) 0 (by decide)⟩

/-- Claim C3: given exactly one tree filename, the unconstrained
optimum, run_au_test performs no engine invocation and returns the
mapping assigning that sole tree the AU p-value one (the likelihood of
the optimum being known, as it is at every call site of the test). -/
theorem au_test_single_tree_skips_engine (l : Rat) (engine : EngineOutcome) :
    runAuTest (some l) engine [mlTreeFn]
      = { invoked := false, result := some [(1, { lnL := l, pValue := some 1 })] } := by
  rfl

/-- Claim C4: the decay computation attempts a constrained search for
an internal clade exactly when its taxon count k satisfies
2 ≤ k ≤ total − 2. -/
theorem constrained_search_attempted_iff_size_in_range
    (ml : Rat) (total : Int)
    (search : Nat → List String → Option String × Option Rat)
    (clades : List (List String)) (j : Nat) (hj : j < clades.length) :
    (j + 1) ∈ (branchPhase ml total search clades).attempted ↔
      2 ≤ ((clades.getD j []).length : Int)
        ∧ ((clades.getD j []).length : Int) ≤ total - 2 := by
  rw [branchPhase, branchLoopAux_attempted]
  simp only [List.nil_append]
  rw [← testableSize_iff]
  constructor
  · intro hmem
    rcases List.mem_map.mp hmem with ⟨p, hp, hfst⟩
    rcases List.mem_filter.mp hp with ⟨hpin, hptest⟩
    rcases (mem_enumClades clades p).mp hpin with ⟨j2, hj2, rfl⟩
    have : j2 = j := by omega
    subst this
    exact hptest
  · intro htest
    apply List.mem_map.mpr
    refine ⟨(j + 1, clades.getD j []), ?_, rfl⟩
    apply List.mem_filter.mpr
    exact ⟨(mem_enumClades clades _).mpr ⟨j, hj, rfl⟩, htest⟩

/-- Witness for C4 at a concrete run with one testable clade of two
taxa among four. -/
theorem constrained_search_attempted_iff_size_in_range_witness :
    (0 : Nat) < ([["A", "B"]] : List (List String)).length ∧
    ((0 + 1) ∈ (branchPhase (-100) 4 (fun _ _ => (none, none)) [["A", "B"]]).attempted ↔
      2 ≤ ((([["A", "B"]] : List (List String)).getD 0 []).length : Int)
        ∧ ((([["A", "B"]] : List (List String)).getD 0 []).length : Int) ≤ 4 - 2) :=
  ⟨by decide,
   constrained_search_attempted_iff_size_in_range (-100) 4
     (fun _ _ => (none, none)) [["A", "B"]] 0 (by decide)⟩

/-- Claim C5: for every record of the final result set whose
constrained log-likelihood and difference are both present, the
difference equals the constrained value minus the (final) optimum
log-likelihood, within the numeric tolerance of one millionth. -/
theorem lnl_diff_is_constrained_minus_optimum
    (ml : Rat) (total : Int) (clades : List (List String))
    (search : Nat → List String → Option String × Option Rat)
    (au : List String → Option (List (Nat × AuEntry)))
    (i : Nat) (rec : DecayRecord) (c d : Rat)
    (hmem : (i, rec) ∈ calculateDecayIndices ml total clades search au)
    (hc : rec.constrainedLnl = some c) (hd : rec.lnlDiff = some d) :
    |d - (c - finalMlLikelihood ml total clades search au)| ≤ (0.000001 : Rat) := by
  have hloop : ∀ p ∈ (branchPhase ml total search clades).infoMap,
      p.2.lnlDiff = p.2.constrainedLnl.map (fun x => x - ml) := by
    apply branchLoopAux_diff_inv
    intro p hp
    simp at hp
  have hinv : rec.lnlDiff = rec.constrainedLnl.map
      (fun x => x - finalMlLikelihood ml total clades search au) := by
    rw [calculateDecayIndices, calculateDecayFull] at hmem
    rw [finalMlLikelihood, calculateDecayFull]
    by_cases he : (branchPhase ml total search clades).infoMap.isEmpty = true
    · rw [if_pos he] at hmem
      simp at hmem
    · rw [if_neg he] at hmem
      rw [if_neg he]
      exact applyAuPhase_diff_inv ml _ _ hloop (i, rec) hmem
  rw [hc, hd] at hinv
  have heq : d = c - finalMlLikelihood ml total clades search au := by
    simpa using hinv
  rw [heq]
  simp only [sub_self, abs_zero]
  norm_num

/-- Witness for C5 at a concrete run: optimum likelihood minus one
hundred, one constrained branch scoring minus one hundred five. -/
theorem lnl_diff_is_constrained_minus_optimum_witness :
    ((1 : Nat),
        ({ taxa := ["A", "B"],
           lnlDiff := some ((-105 : Rat) - (-100 : Rat)),
           constrainedLnl := some (-105 : Rat),
           auPvalue := none, significantAU := none } : DecayRecord))
      ∈ calculateDecayIndices (-100) 4 [["A", "B"]]
          (fun _ _ => (some "constraint_tree_1.tre", some (-105 : Rat))) (fun _ => none) ∧
    |((-105 : Rat) - (-100 : Rat))
        - ((-105 : Rat) - finalMlLikelihood (-100) 4 [["A", "B"]]
            (fun _ _ => (some "constraint_tree_1.tre", some (-105 : Rat))) (fun _ => none))|
      ≤ (0.000001 : Rat) := by
  have hmem : ((1 : Nat),
      ({ taxa := ["A", "B"],
         lnlDiff := some ((-105 : Rat) - (-100 : Rat)),
         constrainedLnl := some (-105 : Rat),
         auPvalue := none, significantAU := none } : DecayRecord))
      ∈ calculateDecayIndices (-100) 4 [["A", "B"]]
          (fun _ _ => (some "constraint_tree_1.tre", some (-105 : Rat))) (fun _ => none) :=
    List.mem_singleton.mpr rfl
  exact ⟨hmem,
    lnl_diff_is_constrained_minus_optimum (-100) 4 [["A", "B"]]
      (fun _ _ => (some "constraint_tree_1.tre", some (-105 : Rat))) (fun _ => none)
      1 _ (-105) ((-105 : Rat) - (-100 : Rat)) hmem rfl rfl⟩

/-- Claim C6: when the joint test fails or returns no data, the final
result set is exactly the branch-phase records — every record keeps its
difference value and has no AU p-value and no significance flag — and
the run still returns this record set as its (degraded) result. -/
theorem au_failure_yields_degraded_result
    (ml : Rat) (total : Int) (clades : List (List String))
    (search : Nat → List String → Option String × Option Rat)
    (au : List String → Option (List (Nat × AuEntry)))
    (hfail : auHasData (au (branchPhase ml total search clades).treeFiles) = false) :
    calculateDecayIndices ml total clades search au
        = (branchPhase ml total search clades).infoMap.map (fun p => (p.1, initRecord p.2)) ∧
    ∀ p ∈ calculateDecayIndices ml total clades search au,
      p.2.auPvalue = none ∧ p.2.significantAU = none := by
  have hmain : calculateDecayIndices ml total clades search au
      = (branchPhase ml total search clades).infoMap.map (fun p => (p.1, initRecord p.2)) := by
    rw [calculateDecayIndices, calculateDecayFull]
    by_cases he : (branchPhase ml total search clades).infoMap.isEmpty = true
    · rw [if_pos he]
      rw [List.isEmpty_iff.mp he]
      rfl
    · rw [if_neg he]
      rw [applyAuPhase.eq_def]
      rw [if_neg (by rw [hfail]; simp)]
  refine ⟨hmain, ?_⟩
  intro p hp
  rw [hmain] at hp
  rcases List.mem_map.mp hp with ⟨q, hq, rfl⟩
  exact ⟨rfl, rfl⟩

/-- Witness for C6 at a concrete run whose AU oracle returns nothing. -/
theorem au_failure_yields_degraded_result_witness :
    auHasData ((fun (_ : List String) => (none : Option (List (Nat × AuEntry))))
        (branchPhase (-100) 4
          (fun _ _ => (some "constraint_tree_1.tre", some (-(101 : Rat)))) [["A", "B"]]).treeFiles)
      = false ∧
    (calculateDecayIndices (-100) 4 [["A", "B"]]
        (fun _ _ => (some "constraint_tree_1.tre", some (-(101 : Rat)))) (fun _ => none)
      = (branchPhase (-100) 4
          (fun _ _ => (some "constraint_tree_1.tre", some (-(101 : Rat)))) [["A", "B"]]).infoMap.map
            (fun p => (p.1, initRecord p.2)) ∧
     ∀ p ∈ calculateDecayIndices (-100) 4 [["A", "B"]]
        (fun _ _ => (some "constraint_tree_1.tre", some (-(101 : Rat)))) (fun _ => none),
       p.2.auPvalue = none ∧ p.2.significantAU = none) :=
  ⟨rfl,
   au_failure_yields_degraded_result (-100) 4 [["A", "B"]]
     (fun _ _ => (some "constraint_tree_1.tre", some (-(101 : Rat)))) (fun _ => none) rfl⟩

/-- Claim C7: the score-file parser returns minus 1234.5678 on a file
with header row Tree -lnL and data row 1 -1234.5678; a data row whose
likelihood field contains a star placeholder is skipped without
failure, the scan continuing with the following rows (shown both on a
concrete file and in general for the row scanner). -/
theorem score_file_header_and_star_rows :
    parseLikelihoodFromScoreFile "Tree -lnL\n1  -1234.5678" = some (-(1234.5678 : Rat)) ∧
    parseLikelihoodFromScoreFile "Tree -lnL\n1 **********\n2 -99.5" = some (-(99.5 : Rat)) ∧
    ∀ (col : Nat) (line : List Char) (rest : List (List Char)),
      col < (wordsOf line).length →
      ((wordsOf line).getD col []).contains '*' = true →
      scanScoreRows col (line :: rest) = scanScoreRows col rest := by
  refine ⟨?_, ?_, ?_⟩
  · have e1 : parseLikelihoodFromScoreFile "Tree -lnL\n1  -1234.5678" =
        some (-(Rat.divInt 12345678 10000)) := by decide
    have e2 : -(Rat.divInt 12345678 10000) = -(1234.5678 : Rat) := by
      rw [Rat.divInt_eq_div]; norm_num
    rw [e1, e2]
  · have e1 : parseLikelihoodFromScoreFile "Tree -lnL\n1 **********\n2 -99.5" =
        some (-(Rat.divInt 995 10)) := by decide
    have e2 : -(Rat.divInt 995 10) = -(99.5 : Rat) := by
      rw [Rat.divInt_eq_div]; norm_num
    rw [e1, e2]
  · intro col line rest h1 h2
    have hempty : (wordsOf line).isEmpty = false := by
      rcases hw : wordsOf line with _ | ⟨w, ws⟩
      · rw [hw] at h1; simp at h1
      · rfl
    have h2mem : '*' ∈ (wordsOf line).getD col [] := by
      simpa [List.contains] using h2
    rw [List.getD_eq_getElem (wordsOf line) [] h1] at h2mem
    simp [scanScoreRows, hempty, h1, h2]
    intro hnot
    exact absurd h2mem hnot

/-- Witness for C7: the general star-row rule applied to the concrete
second row of the example file. -/
theorem score_file_header_and_star_rows_witness :
    (1 : Nat) < (wordsOf ("1 **********".data)).length ∧
    ((wordsOf ("1 **********".data)).getD 1 []).contains '*' = true ∧
    scanScoreRows 1 ("1 **********".data :: ["2 -99.5".data])
      = scanScoreRows 1 ["2 -99.5".data] :=
  ⟨by decide, by decide,
   score_file_header_and_star_rows.2.2 1 ("1 **********".data) ["2 -99.5".data]
     (by decide) (by decide)⟩

/-- Claim C8: the site-decomposition summary counts supporting sites as
deltas below zero, conflicting as deltas above zero, neutral as deltas
of magnitude below one millionth, with the plain and weighted support
ratios infinite (modelled as none) when their denominators are zero;
on the deltas minus 0.5, minus 0.3, 0.2, 0 it yields two supporting,
one conflicting, one neutral, ratio two and weighted ratio four. -/
theorem site_summary_example_and_infinite_denominators :
    siteSummary [-(0.5 : Rat), -(0.3 : Rat), 0.2, 0] =
      { supportingSites := 2, conflictingSites := 1, neutralSites := 1,
        sumSupportingDelta := -(0.8 : Rat), sumConflictingDelta := 0.2,
        supportRatio := some 2, weightedSupportRatio := some 4 } ∧
    (∀ deltas : List Rat, (siteSummary deltas).conflictingSites = 0 →
      (siteSummary deltas).supportRatio = none) ∧
    (∀ deltas : List Rat, (siteSummary deltas).sumConflictingDelta = 0 →
      (siteSummary deltas).weightedSupportRatio = none) := by
  refine ⟨?_, ?_, ?_⟩
  · norm_num [siteSummary, List.filter, abs]
  · intro deltas h
    simp only [siteSummary] at h ⊢
    rw [if_neg]
    omega
  · intro deltas h
    simp only [siteSummary] at h ⊢
    rw [h]
    simp

/-- Witness for C8: the infinite-ratio rules applied to an empty delta
list, whose denominators are zero. -/
theorem site_summary_example_and_infinite_denominators_witness :
    (siteSummary ([] : List Rat)).conflictingSites = 0 ∧
    (siteSummary ([] : List Rat)).supportRatio = none ∧
    (siteSummary ([] : List Rat)).sumConflictingDelta = 0 ∧
    (siteSummary ([] : List Rat)).weightedSupportRatio = none :=
  ⟨by decide,
   site_summary_example_and_infinite_denominators.2.1 [] (by decide),
   by decide,
   site_summary_example_and_infinite_denominators.2.2 [] (by decide)⟩

/-- Claim C9: the three site counts are not a partition: a delta
strictly between minus one millionth and zero is counted both as
supporting and as neutral, one strictly between zero and one millionth
both as conflicting and as neutral, so the counts can sum to more than
the number of sites (as on the concrete one-site list below). -/
theorem site_counts_overlap_near_zero :
    (∀ d : Rat, -(0.000001 : Rat) < d → d < 0 →
      (siteSummary [d]).supportingSites = 1 ∧ (siteSummary [d]).neutralSites = 1 ∧
        (siteSummary [d]).conflictingSites = 0) ∧
    (∀ d : Rat, 0 < d → d < (0.000001 : Rat) →
      (siteSummary [d]).conflictingSites = 1 ∧ (siteSummary [d]).neutralSites = 1 ∧
        (siteSummary [d]).supportingSites = 0) ∧
    ((siteSummary [-(0.0000005 : Rat)]).supportingSites
      + (siteSummary [-(0.0000005 : Rat)]).conflictingSites
      + (siteSummary [-(0.0000005 : Rat)]).neutralSites = 2 ∧
     ([-(0.0000005 : Rat)] : List Rat).length = 1) := by
  refine ⟨?_, ?_, ?_, ?_⟩
  · intro d h1 h2
    have hs : decide (d < 0) = true := decide_eq_true h2
    have hn : |d| < (0.000001 : Rat) := by
      rw [abs_of_neg h2]; linarith
    have hnn : decide (|d| < (0.000001 : Rat)) = true := decide_eq_true hn
    have hc : decide (d > 0) = false := decide_eq_false (by linarith)
    refine ⟨?_, ?_, ?_⟩ <;> simp [siteSummary, List.filter, hs, hnn, hc]
  · intro d h1 h2
    have hs : decide (d < 0) = false := decide_eq_false (by linarith)
    have hn : |d| < (0.000001 : Rat) := by
      rw [abs_of_pos h1]; linarith
    have hnn : decide (|d| < (0.000001 : Rat)) = true := decide_eq_true hn
    have hc : decide (d > 0) = true := decide_eq_true h1
    refine ⟨?_, ?_, ?_⟩ <;> simp [siteSummary, List.filter, hs, hnn, hc]
  · norm_num [siteSummary, List.filter, abs]
  · rfl

/-- Witness for C9: the double counting at the concrete delta minus one
two-millionth. -/
theorem site_counts_overlap_near_zero_witness :
    -(0.000001 : Rat) < -(Rat.divInt 1 2000000) ∧ -(Rat.divInt 1 2000000) < 0 ∧
    ((siteSummary [-(Rat.divInt 1 2000000)]).supportingSites = 1 ∧
     (siteSummary [-(Rat.divInt 1 2000000)]).neutralSites = 1 ∧
     (siteSummary [-(Rat.divInt 1 2000000)]).conflictingSites = 0) :=
  ⟨by rw [Rat.divInt_eq_div]; norm_num, by decide,
   site_counts_overlap_near_zero.1 (-(Rat.divInt 1 2000000))
     (by rw [Rat.divInt_eq_div]; norm_num) (by decide)⟩

/-- Claim C10: taxon formatting for the engine quotes every name
containing whitespace, a topology-special character or a colon,
replacing every internal single quote by an underscore — so a name
containing a single quote is altered — and returns every other name
unchanged. -/
theorem taxon_formatting_quotes_and_replaces (name : String) :
    (name.data.any isPaupSpecial = true →
      formatTaxonForPaup name =
        "\x27" ++ String.mk (name.data.map replaceQuoteChar) ++ "\x27") ∧
    (name.data.any isPaupSpecial = false → formatTaxonForPaup name = name) ∧
    (name.data.contains '\x27' = true → formatTaxonForPaup name ≠ name) := by
  refine ⟨?_, ?_, ?_⟩
  · intro h
    simp [formatTaxonForPaup, h]
  · intro h
    simp [formatTaxonForPaup, h]
  · intro h
    have hmem : '\x27' ∈ name.data := by simpa [List.contains] using h
    have hany : name.data.any isPaupSpecial = true :=
      List.any_eq_true.mpr ⟨'\x27', hmem, by decide⟩
    have hfmt : formatTaxonForPaup name =
        "\x27" ++ String.mk (name.data.map replaceQuoteChar) ++ "\x27" := by
      simp [formatTaxonForPaup, hany]
    intro heq
    have hlen : (("\x27" : String) ++ String.mk (name.data.map replaceQuoteChar) ++ "\x27").length
        = name.length + 2 := by
      rw [String.length_append, String.length_append]
      have hone : ("\x27" : String).length = 1 := rfl
      have hmid : (String.mk (name.data.map replaceQuoteChar)).length = name.length := by
        show (name.data.map replaceQuoteChar).length = name.length
        rw [List.length_map]
        rfl
      omega
    rw [hfmt] at heq
    rw [heq] at hlen
    omega

/-- Witness for C10 at two concrete names: one with an internal single
quote (quoted and altered) and one plain name (unchanged). -/
theorem taxon_formatting_quotes_and_replaces_witness :
    ("O\x27neill".data.any isPaupSpecial = true ∧
      formatTaxonForPaup "O\x27neill" =
        "\x27" ++ String.mk ("O\x27neill".data.map replaceQuoteChar) ++ "\x27") ∧
    ("Taxon1".data.any isPaupSpecial = false ∧ formatTaxonForPaup "Taxon1" = "Taxon1") ∧
    ("O\x27neill".data.contains '\x27' = true ∧ formatTaxonForPaup "O\x27neill" ≠ "O\x27neill") :=
  ⟨⟨by decide, (taxon_formatting_quotes_and_replaces "O\x27neill").1 (by decide)⟩,
   ⟨by decide, (taxon_formatting_quotes_and_replaces "Taxon1").2.1 (by decide)⟩,
   ⟨by decide, (taxon_formatting_quotes_and_replaces "O\x27neill").2.2 (by decide)⟩⟩

end MLDecay
